import Mathlib

/-!
Verification of the container-image-promoter consistency checks
(`lib/dockerregistry/checks.go`) and the classification rule of the
audit verifier, as a shallow embedding in Lean 4.

Go `map[K]V` values are embedded as association lists `List (K × V)`
(lookup takes the first matching key; a missing key yields the zero
value, as in Go); Go `map[PromotionEdge]interface{}` sets are embedded
as `List PromotionEdge`, the list being one enumeration of the set
(Go map iteration order is unspecified, so properties that depend on
enumeration order are studied up to permutation of these lists).
Go `int` is a signed 64-bit machine integer; arithmetic that can
overflow is wrapped through `toInt64`.
-/

/-- Modelled from the spec: the `ImageTag` pair type (its Go definition,
in `types.go`, is not part of the sources here).  Per the data model of
the spec, `DstImageTag` is a "pair of (destination image path, tag) —
tag may be empty". -/
structure ImageTag where
  imageName : String
  tag : String
deriving DecidableEq

/-- Modelled from the spec: the `PromotionEdge` struct (its Go definition
is not part of the sources here).  Per the spec, an edge is
`{DstImageTag, Digest}` plus the source-side fields, "optionally carrying
the digest of an enclosing fat manifest (parent digest)"; the Go zero
value of the optional parent digest is the empty string, embedded as
`none`. -/
structure PromotionEdge where
  srcRegistry : String
  srcImageTag : ImageTag
  digest : String
  dstRegistry : String
  dstImageTag : ImageTag
  parentDigest : Option String
deriving DecidableEq

/-- Wrap of an integer into the 64-bit signed range (two complement),
the semantics of overflowing Go `int` arithmetic. -/
def toInt64 (n : Int) : Int :=
  (n + 2 ^ 63) % 2 ^ 64 - 2 ^ 63

/-- `MBToBytes` converts a value from MiB to Bytes (`value << 20` on a
Go `int`, wrapping at 64 bits). -/
def MBToBytes (value : Int) : Int :=
  toInt64 (value * 2 ^ 20)

/-- `BytesToMB` converts a value from Bytes to MiB (`value >> 20`, the
arithmetic right shift on a Go `int`, i.e. floor division by `2 ^ 20`;
no overflow is possible on an in-range input). -/
def BytesToMB (value : Int) : Int :=
  Int.fdiv value (2 ^ 20)

/-- Character accepted by the Go `hex.DecodeString` decoder. -/
def isHexChar (c : Char) : Bool :=
  (decide ('0' ≤ c) && decide (c ≤ '9')) ||
  (decide ('a' ≤ c) && decide (c ≤ 'f')) ||
  (decide ('A' ≤ c) && decide (c ≤ 'F'))

/-- `getGitShaFromEnv` of checks.go: read `envVar` from the process
environment (Go `os.Getenv` returns `""` for an absent variable, so the
environment is embedded as a total function `String → String`), require
exactly 40 bytes (Go `len` counts bytes) and hex-decodability. -/
def getGitShaFromEnv (env : String → String) (envVar : String) :
    Except String String :=
  let potenitalSHA := env envVar
  if potenitalSHA.utf8ByteSize ≠ 40 then
    .error ("Length of SHA is " ++ toString potenitalSHA.utf8ByteSize ++
      " characters, should be 40")
  else if ¬ potenitalSHA.data.all isHexChar then
    .error "Not a valid SHA: encoding/hex: invalid byte"
  else
    .ok potenitalSHA

/-- A revision identifier `getGitShaFromEnv` accepts: exactly 40 bytes,
every character hex-decodable. -/
def validSHA (s : String) : Prop :=
  s.utf8ByteSize = 40 ∧ s.data.all isHexChar = true

instance (s : String) : Decidable (validSHA s) := by
  unfold validSHA; infer_instance

/-- The `ImageRemovalCheck` struct of checks.go.  The two SHAs are kept
as their validated 40-hex-character strings. -/
structure ImageRemovalCheck where
  gitRepoPath : String
  masterSHA : String
  pullRequestSHA : String
  pullEdges : List PromotionEdge

/-- `MKRealImageRemovalCheck` of checks.go: validate the
`PULL_BASE_SHA` and `PULL_PULL_SHA` environment variables and build the
check.  The function is pure in the embedding, as in the source: no
repository access happens at construction time. -/
def MKRealImageRemovalCheck (env : String → String) (gitRepoPath : String)
    (edges : List PromotionEdge) : Except String ImageRemovalCheck :=
  match getGitShaFromEnv env "PULL_BASE_SHA" with
  | .error e =>
      .error ("The PULL_BASE_SHA environment variable is invalid: " ++ e)
  | .ok masterSHA =>
    match getGitShaFromEnv env "PULL_PULL_SHA" with
    | .error e =>
        .error ("The PULL_PULL_SHA environment variable is invalid: " ++ e)
    | .ok pullRequestSHA =>
        .ok ⟨gitRepoPath, masterSHA, pullRequestSHA, edges⟩

/-- The struct literal `PromotionEdge{DstImageTag: ..., Digest: ...}`
built at checks.go:145 and checks.go:155: `DstImageTag` and `Digest` are
copied whole, every other field takes its Go zero value. -/
def PromotionEdge.projection (e : PromotionEdge) : PromotionEdge :=
  { srcRegistry := ""
    srcImageTag := ⟨"", ""⟩
    digest := e.digest
    dstRegistry := ""
    dstImageTag := e.dstImageTag
    parentDigest := none }

/-- The list of destination-image names accumulated by
`ImageRemovalCheck.Compare` (checks.go:153-163): the names of the master
edges whose `(DstImageTag, Digest)` projection is not the projection of
any pull-request edge, in master-enumeration order. -/
def removedImages (edgesMaster edgesPullRequest : List PromotionEdge) :
    List String :=
  let destinationImages := edgesPullRequest.map PromotionEdge.projection
  (edgesMaster.filter
      (fun edge => ! decide (edge.projection ∈ destinationImages))).map
    (fun edge => edge.dstImageTag.imageName)

/-- `ImageRemovalCheck.Compare` of checks.go: `none` models the `nil`
return, `some s` an error with text `s`. -/
def ImageRemovalCheck.Compare (_check : ImageRemovalCheck)
    (edgesMaster edgesPullRequest : List PromotionEdge) : Option String :=
  let removed := removedImages edgesMaster edgesPullRequest
  if removed.length > 0 then
    some ("The following images were removed in this pull request: " ++
      String.intercalate ", " removed)
  else
    none

/-- Go map lookup in a `map[Digest]int` association list: first matching
key, zero value `0` when absent (checks.go:228 `check.DigestImageSize[edge.Digest]`). -/
def lookupSize (m : List (String × Int)) (d : String) : Int :=
  ((m.find? (fun p => decide (p.1 = d))).map Prod.snd).getD 0

/-- Go map insertion into a `map[string]int` association list:
overwrite the existing entry for the key when present, else append. -/
def mapInsert (m : List (String × Int)) (k : String) (v : Int) :
    List (String × Int) :=
  if m.any (fun p => decide (p.1 = k)) then
    m.map (fun p => if p.1 = k then (k, v) else p)
  else
    m ++ [(k, v)]

/-- Whether an association list has an entry for key `k`. -/
def hasKey (m : List (String × Int)) (k : String) : Prop :=
  ∃ p ∈ m, p.1 = k

instance (m : List (String × Int)) (k : String) : Decidable (hasKey m k) := by
  unfold hasKey; infer_instance

/-- The `ImageSizeError` struct of checks.go. -/
structure ImageSizeError where
  maxImageSize : Int
  oversizedImages : List (String × Int)
  invalidImages : List (String × Int)
deriving DecidableEq

/-- Lexicographic comparison of character lists by codepoint.  UTF-8
encoding preserves codepoint order lexicographically, so this is the
byte-wise string comparison used by the Go `sort.Strings`. -/
def charListLe : List Char → List Char → Bool
  | [], _ => true
  | _ :: _, [] => false
  | a :: as, b :: bs =>
      if a.toNat < b.toNat then true
      else if b.toNat < a.toNat then false
      else charListLe as bs

/-- Lexicographic string comparison, the `Less` order of the Go
`sort.Strings`. -/
def strLe (a b : String) : Bool :=
  charListLe a.data b.data

/-- The embedding of the Go `sort.Strings` (checks.go:196): sort a list
of strings into nondecreasing lexicographic order. -/
def sortStrings (l : List String) : List String :=
  List.insertionSort (fun a b => strLe a b = true) l

/-- `ImageSizeError.joinImageSizesToString` of checks.go: sort the image
names, then render each as `name (size-in-MiB MiB)`, newline-joined. -/
def joinImageSizesToString (imageSizes : List (String × Int)) : String :=
  let imageNames := sortStrings (imageSizes.map Prod.fst)
  String.intercalate "\n"
    (imageNames.map (fun imageName =>
      imageName ++ " (" ++
        toString (BytesToMB (lookupSize imageSizes imageName)) ++ " MiB)"))

/-- `ImageSizeError.Error` of checks.go. -/
def ImageSizeError.errorText (err : ImageSizeError) : String :=
  (if err.oversizedImages.length > 0 then
    "The following images were over the max file size of " ++
      toString err.maxImageSize ++ "MiB:\n" ++
      joinImageSizesToString err.oversizedImages ++ "\n"
  else "") ++
  (if err.invalidImages.length > 0 then
    "The following images had an invalid file size of 0 bytes or less:\n" ++
      joinImageSizesToString err.invalidImages ++ "\n"
  else "")

/-- The `ImageSizeCheck` struct of checks.go. -/
structure ImageSizeCheck where
  maxImageSize : Int
  digestImageSize : List (String × Int)
  pullEdges : List PromotionEdge

/-- One iteration of the loop in `ImageSizeCheck.Run` (checks.go:227-236):
look up the size of the edge, record it in the oversized map when it strictly
exceeds the byte ceiling, and in the invalid map when it is `≤ 0`. -/
def sizeStep (maxImageSizeByte : Int) (digestImageSize : List (String × Int))
    (acc : List (String × Int) × List (String × Int)) (edge : PromotionEdge) :
    List (String × Int) × List (String × Int) :=
  let imageSize := lookupSize digestImageSize edge.digest
  let imageName := edge.dstImageTag.imageName
  let acc1 :=
    if imageSize > maxImageSizeByte then
      (mapInsert acc.1 imageName imageSize, acc.2)
    else acc
  if imageSize ≤ 0 then
    (acc1.1, mapInsert acc1.2 imageName imageSize)
  else acc1

/-- The `(oversizedImages, invalidImages)` pair built by the loop of
`ImageSizeCheck.Run`. -/
def ImageSizeCheck.violations (check : ImageSizeCheck) :
    List (String × Int) × List (String × Int) :=
  check.pullEdges.foldl
    (sizeStep (MBToBytes check.maxImageSize) check.digestImageSize) ([], [])

/-- `ImageSizeCheck.Run` of checks.go: `none` models the `nil` return,
`some err` the returned `ImageSizeError`. -/
def ImageSizeCheck.run (check : ImageSizeCheck) : Option ImageSizeError :=
  let acc := check.violations
  if acc.1.length > 0 ∨ acc.2.length > 0 then
    some ⟨check.maxImageSize, acc.1, acc.2⟩
  else
    none

/-- A registry mutation event as consumed by the audit verifier
(Action=INSERT carrying Path, Digest, Tag). -/
structure MutationEvent where
  path : String
  digest : String
  tag : String
deriving DecidableEq

/-- A verdict of the audit verifier: VERIFIED with its justification
text, or REJECTED with its reason. -/
inductive Verdict where
  | verified (note : String)
  | rejected (reason : String)
deriving DecidableEq

/-- Whether a promotion edge matches a mutation event by
`(DstImageTag{Path, Tag}, Digest)` equality. -/
def edgeMatches (ev : MutationEvent) (e : PromotionEdge) : Bool :=
  decide (e.dstImageTag.imageName = ev.path) &&
  decide (e.dstImageTag.tag = ev.tag) &&
  decide (e.digest = ev.digest)

/-- Modelled from the spec: the per-event classification rule of the
audit verifier (its Go implementation is not part of the sources here).
Per the spec, an incoming event is matched against the promotion-edge
set by `(DstImageTag{Path,Tag}, Digest)` equality; on a match the
verdict is VERIFIED, noting `agrees with manifest (parent digest ...)`
when the edge carries a parent digest and `agrees with manifest`
otherwise; with no match the verdict is REJECTED `could not validate`. -/
def verifyEvent (edges : List PromotionEdge) (ev : MutationEvent) : Verdict :=
  match edges.find? (edgeMatches ev) with
  | some e =>
      match e.parentDigest with
      | some p => .verified ("agrees with manifest (parent digest " ++ p ++ ")")
      | none => .verified "agrees with manifest"
  | none => .rejected "could not validate"

/-- The collaborators of `ImageRemovalCheck.Run` (checks.go:86-132):
repository open and worktree acquisition (each either succeeds or fails
with an error text), checkout of a revision (an error text when it
fails; a successful checkout moves the worktree to that revision and a
failed one leaves it unchanged), `ParseThinManifestsFromDir` (whose
result depends on the revision the worktree is checked out at, since it
reads the manifest files of that revision) and `ToPromotionEdges`.  `M`
is the type of parsed manifests. -/
structure RemovalEnv (M : Type) where
  openResult : Option String
  worktreeResult : Option String
  checkoutError : String → Option String
  parseResult : String → Except String M
  toEdges : M → Except String (List PromotionEdge)

/-- `ImageRemovalCheck.Run` of checks.go as a state-passing function:
`checkedOut` is the revision the shared worktree is at on entry, the
first component of the result is the revision it is at on exit, the
second is the returned error (`none` for `nil`).  The source checks out
the master SHA, parses the manifests there, builds the master edge set,
checks the pull-request SHA back out, and only then compares; each
failing step returns immediately with its error. -/
def runRemoval {M : Type} (env : RemovalEnv M) (check : ImageRemovalCheck)
    (checkedOut : String) : String × Option String :=
  match env.openResult with
  | some e => (checkedOut, some ("Could not open the Git repo: " ++ e))
  | none =>
    match env.worktreeResult with
    | some e => (checkedOut, some ("Could not create Git worktree: " ++ e))
    | none =>
      match env.checkoutError check.masterSHA with
      | some e =>
          (checkedOut,
            some ("Could not checkout the master branch of the Git repo: " ++ e))
      | none =>
        match env.parseResult check.masterSHA with
        | .error e =>
            (check.masterSHA,
              some ("Could not parse manifests from the directory: " ++ e))
        | .ok mfests =>
          match env.toEdges mfests with
          | .error e =>
              (check.masterSHA,
                some ("Could not generate promotion edges from promoter" ++
                  " manifests: " ++ e))
          | .ok masterEdges =>
            match env.checkoutError check.pullRequestSHA with
            | some e =>
                (check.masterSHA,
                  some ("Could not checkout the pull request branch of the" ++
                    " Git repo " ++ check.gitRepoPath ++ ": " ++ e))
            | none =>
                (check.pullRequestSHA,
                  check.Compare masterEdges check.pullEdges)

/-- Convenience constructor for a promotion edge with only the
destination-relevant fields set (the remaining fields take their Go
zero values). -/
def mkEdge (path tag digest : String) : PromotionEdge :=
  ⟨"", ⟨"", ""⟩, digest, "", ⟨path, tag⟩, none⟩

lemma mem_removedImages (edgesMaster edgesPullRequest : List PromotionEdge)
    (name : String) :
    name ∈ removedImages edgesMaster edgesPullRequest ↔
      ∃ e ∈ edgesMaster, e.dstImageTag.imageName = name ∧
        ∀ e2 ∈ edgesPullRequest, e2.projection ≠ e.projection := by
  unfold removedImages
  simp only [List.mem_map, List.mem_filter, Bool.not_eq_true', decide_eq_false_iff_not,
    List.mem_map, not_exists]
  constructor
  · rintro ⟨e, ⟨he, hnot⟩, rfl⟩
    exact ⟨e, he, rfl, fun e2 he2 h => hnot e2 ⟨he2, h⟩⟩
  · rintro ⟨e, he, rfl, hall⟩
    exact ⟨e, ⟨he, fun e2 h2 => hall e2 h2.1 h2.2⟩, rfl⟩

lemma removedImages_eq_nil (edgesMaster edgesPullRequest : List PromotionEdge) :
    removedImages edgesMaster edgesPullRequest = [] ↔
      ∀ e ∈ edgesMaster, ∃ e2 ∈ edgesPullRequest,
        e2.projection = e.projection := by
  unfold removedImages
  simp only [List.map_eq_nil_iff, List.filter_eq_nil_iff, Bool.not_eq_true',
    decide_eq_false_iff_not, not_not, List.mem_map]

lemma compare_eq_none (c : ImageRemovalCheck)
    (edgesMaster edgesPullRequest : List PromotionEdge) :
    ImageRemovalCheck.Compare c edgesMaster edgesPullRequest = none ↔
      removedImages edgesMaster edgesPullRequest = [] := by
  unfold ImageRemovalCheck.Compare
  by_cases h : removedImages edgesMaster edgesPullRequest = []
  · simp [h]
  · simp [h, List.length_pos.mpr h]

lemma compare_eq_some (c : ImageRemovalCheck)
    (edgesMaster edgesPullRequest : List PromotionEdge)
    (h : removedImages edgesMaster edgesPullRequest ≠ []) :
    ImageRemovalCheck.Compare c edgesMaster edgesPullRequest =
      some ("The following images were removed in this pull request: " ++
        String.intercalate ", "
          (removedImages edgesMaster edgesPullRequest)) := by
  unfold ImageRemovalCheck.Compare
  simp [List.length_pos.mpr h]

/-- Claim C1: `Compare` succeeds exactly when every `(DstImageTag,
Digest)` projection of a baseline edge is the projection of some
candidate edge; otherwise it fails, and the list of names in the error
holds exactly the destination image names of the baseline edges whose
projection is absent, the error text being the comma-join of that
list. -/
theorem compare_projection_spec (c : ImageRemovalCheck)
    (edgesMaster edgesPullRequest : List PromotionEdge) :
    (ImageRemovalCheck.Compare c edgesMaster edgesPullRequest = none ↔
      ∀ e ∈ edgesMaster, ∃ e2 ∈ edgesPullRequest,
        e2.projection = e.projection) ∧
    (∀ name, name ∈ removedImages edgesMaster edgesPullRequest ↔
      ∃ e ∈ edgesMaster, e.dstImageTag.imageName = name ∧
        ∀ e2 ∈ edgesPullRequest, e2.projection ≠ e.projection) ∧
    (removedImages edgesMaster edgesPullRequest ≠ [] →
      ImageRemovalCheck.Compare c edgesMaster edgesPullRequest =
        some ("The following images were removed in this pull request: " ++
          String.intercalate ", "
            (removedImages edgesMaster edgesPullRequest))) := by
  refine ⟨?_, fun name => mem_removedImages _ _ name,
    fun h => compare_eq_some c _ _ h⟩
  rw [compare_eq_none, removedImages_eq_nil]

/-- Witness for claim C1 at a concrete input: one baseline edge, empty
candidate set. -/
theorem compare_projection_spec_witness :
    removedImages [mkEdge "p" "t" "d"] [] ≠ [] ∧
    ImageRemovalCheck.Compare ⟨"", "", "", []⟩ [mkEdge "p" "t" "d"] [] =
      some ("The following images were removed in this pull request: " ++
        String.intercalate ", " (removedImages [mkEdge "p" "t" "d"] [])) :=
  ⟨by decide, (compare_projection_spec ⟨"", "", "", []⟩ _ _).2.2 (by decide)⟩

/-- Claim C3 counterexample: the baseline edge `(p, tag 1.0, d)` and the
candidate edge `(p, tag 2.0, d)` agree on destination image path and
digest, yet `Compare` reports `p` as removed: the projection built at
checks.go:145 copies `DstImageTag` whole, tag included, so a tag-only
change is a removal finding. -/
theorem tagOnly_change_cex :
    (∀ e ∈ [mkEdge "p" "1.0" "d"], ∃ e2 ∈ [mkEdge "p" "2.0" "d"],
      e2.dstImageTag.imageName = e.dstImageTag.imageName ∧
        e2.digest = e.digest) ∧
    ImageRemovalCheck.Compare ⟨"", "", "", []⟩
        [mkEdge "p" "1.0" "d"] [mkEdge "p" "2.0" "d"] ≠ none ∧
    removedImages [mkEdge "p" "1.0" "d"] [mkEdge "p" "2.0" "d"] = ["p"] := by
  refine ⟨by decide, ?_, by decide⟩
  rw [compare_eq_some ⟨"", "", "", []⟩ _ _ (by decide)]
  decide

/-- Claim C3 amended: if for each baseline edge some candidate edge has
the same full `DstImageTag` (destination path AND tag) and the same
`Digest`, then `Compare` reports no removals; the projection drops only
the source-side fields, not the tag. -/
theorem fullTag_match_no_removal (c : ImageRemovalCheck)
    (edgesMaster edgesPullRequest : List PromotionEdge)
    (h : ∀ e ∈ edgesMaster, ∃ e2 ∈ edgesPullRequest,
      e2.dstImageTag = e.dstImageTag ∧ e2.digest = e.digest) :
    ImageRemovalCheck.Compare c edgesMaster edgesPullRequest = none := by
  rw [compare_eq_none, removedImages_eq_nil]
  intro e he
  obtain ⟨e2, he2, ht, hd⟩ := h e he
  exact ⟨e2, he2, by simp [PromotionEdge.projection, ht, hd]⟩

/-- Witness for the amended claim C3 at a concrete input. -/
theorem fullTag_match_no_removal_witness :
    ImageRemovalCheck.Compare ⟨"", "", "", []⟩
      [mkEdge "p" "1.0" "d"] [mkEdge "p" "1.0" "d"] = none :=
  fullTag_match_no_removal ⟨"", "", "", []⟩ _ _ (by decide)

/-- Claim C8 counterexample: `Compare` joins `removedImages` in
enumeration order without sorting, and a Go map enumerates its edges in
an unspecified order, so the two enumerations `[b-edge, a-edge]` and
`[a-edge, b-edge]` of the same two-edge baseline set produce different
error text; the name list `["b", "a"]` of the first enumeration is not
sorted. -/
theorem compare_order_cex :
    ([mkEdge "b" "" "db", mkEdge "a" "" "da"] : List PromotionEdge).Perm
      [mkEdge "a" "" "da", mkEdge "b" "" "db"] ∧
    ImageRemovalCheck.Compare ⟨"", "", "", []⟩
        [mkEdge "b" "" "db", mkEdge "a" "" "da"] [] ≠
      ImageRemovalCheck.Compare ⟨"", "", "", []⟩
        [mkEdge "a" "" "da", mkEdge "b" "" "db"] [] ∧
    removedImages [mkEdge "b" "" "db", mkEdge "a" "" "da"] [] = ["b", "a"] ∧
    sortStrings ["b", "a"] ≠ ["b", "a"] := by
  refine ⟨List.Perm.swap (mkEdge "a" "" "da") (mkEdge "b" "" "db") [], ?_, by decide, by decide⟩
  rw [compare_eq_some ⟨"", "", "", []⟩ _ _ (by decide),
    compare_eq_some ⟨"", "", "", []⟩ _ _ (by decide)]
  decide

lemma removedImages_perm (base1 base2 cand1 cand2 : List PromotionEdge)
    (hb : base1.Perm base2) (hc : ∀ e : PromotionEdge, e ∈ cand1 ↔ e ∈ cand2) :
    (removedImages base1 cand1).Perm (removedImages base2 cand2) := by
  unfold removedImages
  have hpred : ∀ e : PromotionEdge,
      (! decide (e.projection ∈ cand1.map PromotionEdge.projection)) =
      (! decide (e.projection ∈ cand2.map PromotionEdge.projection)) := by
    intro e
    congr 1
    rw [decide_eq_decide]
    simp only [List.mem_map]
    constructor
    · rintro ⟨x, hx, h⟩; exact ⟨x, (hc x).mp hx, h⟩
    · rintro ⟨x, hx, h⟩; exact ⟨x, (hc x).mpr hx, h⟩
  have h1 := hb.filter
    (fun e => ! decide (e.projection ∈ cand1.map PromotionEdge.projection))
  have h2 : base2.filter
        (fun e => ! decide (e.projection ∈ cand1.map PromotionEdge.projection)) =
      base2.filter
        (fun e => ! decide (e.projection ∈ cand2.map PromotionEdge.projection)) :=
    List.filter_congr (fun a _ => hpred a)
  rw [h2] at h1
  exact h1.map _

/-- Claim C8 amended: the user-visible output of `Compare` is
determined by the edge sets only up to enumeration order — permuting
the baseline enumeration (or re-enumerating a candidate set with the
same members) permutes the removed-name list and preserves
success/failure, but the names are listed in baseline-enumeration
order, which is not sorted. -/
theorem compare_perm_invariant (c : ImageRemovalCheck)
    (base1 base2 cand1 cand2 : List PromotionEdge)
    (hb : base1.Perm base2) (hc : ∀ e : PromotionEdge, e ∈ cand1 ↔ e ∈ cand2) :
    (removedImages base1 cand1).Perm (removedImages base2 cand2) ∧
    (ImageRemovalCheck.Compare c base1 cand1 = none ↔
      ImageRemovalCheck.Compare c base2 cand2 = none) := by
  have hp := removedImages_perm base1 base2 cand1 cand2 hb hc
  refine ⟨hp, ?_⟩
  rw [compare_eq_none, compare_eq_none, ← List.length_eq_zero,
    ← List.length_eq_zero, hp.length_eq]

/-- Witness for the amended claim C8 at a concrete input. -/
theorem compare_perm_invariant_witness :
    (removedImages [mkEdge "p" "t" "d"] []).Perm
      (removedImages [mkEdge "p" "t" "d"] []) ∧
    (ImageRemovalCheck.Compare ⟨"", "", "", []⟩ [mkEdge "p" "t" "d"] [] = none ↔
      ImageRemovalCheck.Compare ⟨"", "", "", []⟩ [mkEdge "p" "t" "d"] [] = none) :=
  compare_perm_invariant ⟨"", "", "", []⟩ _ _ _ _ (List.Perm.refl _)
    (fun _ => Iff.rfl)

lemma hasKey_mapInsert (m : List (String × Int)) (k : String) (v : Int)
    (k' : String) :
    hasKey (mapInsert m k v) k' ↔ hasKey m k' ∨ k' = k := by
  unfold mapInsert hasKey
  by_cases h : m.any (fun p => decide (p.1 = k)) = true
  · rw [if_pos h]
    constructor
    · rintro ⟨p, hp, hpk⟩
      rw [List.mem_map] at hp
      obtain ⟨q, hq, rfl⟩ := hp
      by_cases hqk : q.1 = k
      · right
        rw [if_pos hqk] at hpk
        exact hpk.symm
      · left
        rw [if_neg hqk] at hpk
        exact ⟨q, hq, hpk⟩
    · rintro (⟨p, hp, hpk⟩ | heq)
      · by_cases hpk2 : p.1 = k
        · refine ⟨(k, v), List.mem_map.mpr ⟨p, hp, if_pos hpk2⟩, ?_⟩
          rw [← hpk, hpk2]
        · exact ⟨p, List.mem_map.mpr ⟨p, hp, if_neg hpk2⟩, hpk⟩
      · rw [List.any_eq_true] at h
        obtain ⟨p, hp, hpk⟩ := h
        rw [decide_eq_true_eq] at hpk
        exact ⟨(k, v), List.mem_map.mpr ⟨p, hp, if_pos hpk⟩, heq.symm⟩
  · rw [if_neg h]
    constructor
    · rintro ⟨p, hp, hpk⟩
      rcases List.mem_append.mp hp with h1 | h1
      · exact Or.inl ⟨p, h1, hpk⟩
      · rw [List.mem_singleton] at h1
        subst h1
        exact Or.inr hpk.symm
    · rintro (⟨p, hp, hpk⟩ | heq)
      · exact ⟨p, List.mem_append.mpr (Or.inl hp), hpk⟩
      · exact ⟨(k, v), List.mem_append.mpr (Or.inr (List.mem_singleton.mpr rfl)),
          heq.symm⟩

lemma sizeStep_fst_hasKey (maxB : Int) (sizes : List (String × Int))
    (acc : List (String × Int) × List (String × Int)) (edge : PromotionEdge)
    (k : String) :
    hasKey (sizeStep maxB sizes acc edge).1 k ↔
      hasKey acc.1 k ∨
        (edge.dstImageTag.imageName = k ∧ lookupSize sizes edge.digest > maxB) := by
  unfold sizeStep
  by_cases h1 : lookupSize sizes edge.digest > maxB <;>
    by_cases h2 : lookupSize sizes edge.digest ≤ 0 <;>
      simp [h1, h2, hasKey_mapInsert, eq_comm]

lemma sizeStep_snd_hasKey (maxB : Int) (sizes : List (String × Int))
    (acc : List (String × Int) × List (String × Int)) (edge : PromotionEdge)
    (k : String) :
    hasKey (sizeStep maxB sizes acc edge).2 k ↔
      hasKey acc.2 k ∨
        (edge.dstImageTag.imageName = k ∧ lookupSize sizes edge.digest ≤ 0) := by
  unfold sizeStep
  by_cases h1 : lookupSize sizes edge.digest > maxB <;>
    by_cases h2 : lookupSize sizes edge.digest ≤ 0 <;>
      simp [h1, h2, hasKey_mapInsert, eq_comm]

lemma foldl_sizeStep_fst (maxB : Int) (sizes : List (String × Int))
    (edges : List PromotionEdge)
    (acc : List (String × Int) × List (String × Int)) (k : String) :
    hasKey (edges.foldl (sizeStep maxB sizes) acc).1 k ↔
      hasKey acc.1 k ∨
        ∃ e ∈ edges, e.dstImageTag.imageName = k ∧
          lookupSize sizes e.digest > maxB := by
  induction edges generalizing acc with
  | nil => simp
  | cons e es ih =>
      rw [List.foldl_cons, ih, sizeStep_fst_hasKey,
        List.exists_mem_cons_iff]
      tauto

lemma foldl_sizeStep_snd (maxB : Int) (sizes : List (String × Int))
    (edges : List PromotionEdge)
    (acc : List (String × Int) × List (String × Int)) (k : String) :
    hasKey (edges.foldl (sizeStep maxB sizes) acc).2 k ↔
      hasKey acc.2 k ∨
        ∃ e ∈ edges, e.dstImageTag.imageName = k ∧
          lookupSize sizes e.digest ≤ 0 := by
  induction edges generalizing acc with
  | nil => simp
  | cons e es ih =>
      rw [List.foldl_cons, ih, sizeStep_snd_hasKey,
        List.exists_mem_cons_iff]
      tauto

lemma eq_nil_iff_no_key (m : List (String × Int)) :
    m = [] ↔ ∀ k, ¬ hasKey m k := by
  constructor
  · rintro rfl k ⟨p, hp, _⟩
    exact absurd hp (List.not_mem_nil p)
  · intro h
    cases m with
    | nil => rfl
    | cons p m => exact absurd ⟨p, List.mem_cons_self p m, rfl⟩ (h p.1)

lemma violations_fst_hasKey (check : ImageSizeCheck) (k : String) :
    hasKey check.violations.1 k ↔
      ∃ e ∈ check.pullEdges, e.dstImageTag.imageName = k ∧
        lookupSize check.digestImageSize e.digest >
          MBToBytes check.maxImageSize := by
  unfold ImageSizeCheck.violations
  rw [foldl_sizeStep_fst]
  simp [hasKey]

lemma violations_snd_hasKey (check : ImageSizeCheck) (k : String) :
    hasKey check.violations.2 k ↔
      ∃ e ∈ check.pullEdges, e.dstImageTag.imageName = k ∧
        lookupSize check.digestImageSize e.digest ≤ 0 := by
  unfold ImageSizeCheck.violations
  rw [foldl_sizeStep_snd]
  simp [hasKey]

lemma run_eq_none_iff (check : ImageSizeCheck) :
    check.run = none ↔
      check.violations.1 = [] ∧ check.violations.2 = [] := by
  unfold ImageSizeCheck.run
  by_cases h : check.violations.1.length > 0 ∨ check.violations.2.length > 0
  · rw [if_pos h]
    simp only [reduceCtorEq, false_iff]
    rintro ⟨h1, h2⟩
    rw [h1, h2] at h
    simp at h
  · rw [if_neg h]
    push_neg at h
    obtain ⟨h1, h2⟩ := h
    simp only [gt_iff_lt, not_lt, Nat.le_zero, List.length_eq_zero] at h1 h2
    simp [h1, h2]

/-- Claim C2: an image name is recorded oversized exactly when some
candidate edge with that name has looked-up size strictly above the
ceiling shifted left by 20 bits, recorded invalid exactly when some
such edge has size ≤ 0, and `Run` succeeds iff no edge is oversized or
invalid; concretely with a 1 MiB ceiling, size 1048577 is oversized,
1048576 is not, 0 and -5 are invalid, 500 is neither. -/
theorem imageSizeCheck_run_spec (check : ImageSizeCheck) :
    (∀ name, hasKey check.violations.1 name ↔
      ∃ e ∈ check.pullEdges, e.dstImageTag.imageName = name ∧
        lookupSize check.digestImageSize e.digest >
          MBToBytes check.maxImageSize) ∧
    (∀ name, hasKey check.violations.2 name ↔
      ∃ e ∈ check.pullEdges, e.dstImageTag.imageName = name ∧
        lookupSize check.digestImageSize e.digest ≤ 0) ∧
    (check.run = none ↔ ∀ e ∈ check.pullEdges,
      lookupSize check.digestImageSize e.digest ≤ MBToBytes check.maxImageSize ∧
        0 < lookupSize check.digestImageSize e.digest) ∧
    (MBToBytes 1 = 1048576 ∧
      (ImageSizeCheck.violations ⟨1,
          [("d1", 1048577), ("d2", 1048576), ("d3", 0), ("d4", -5), ("d5", 500)],
          [mkEdge "i1" "" "d1", mkEdge "i2" "" "d2", mkEdge "i3" "" "d3",
            mkEdge "i4" "" "d4", mkEdge "i5" "" "d5"]⟩).1 =
        [("i1", 1048577)] ∧
      (ImageSizeCheck.violations ⟨1,
          [("d1", 1048577), ("d2", 1048576), ("d3", 0), ("d4", -5), ("d5", 500)],
          [mkEdge "i1" "" "d1", mkEdge "i2" "" "d2", mkEdge "i3" "" "d3",
            mkEdge "i4" "" "d4", mkEdge "i5" "" "d5"]⟩).2 =
        [("i3", 0), ("i4", -5)] ∧
      ImageSizeCheck.run ⟨1,
          [("d1", 1048577), ("d2", 1048576), ("d3", 0), ("d4", -5), ("d5", 500)],
          [mkEdge "i1" "" "d1", mkEdge "i2" "" "d2", mkEdge "i3" "" "d3",
            mkEdge "i4" "" "d4", mkEdge "i5" "" "d5"]⟩ ≠ none ∧
      ImageSizeCheck.run ⟨1, [("d2", 1048576), ("d5", 500)],
          [mkEdge "i2" "" "d2", mkEdge "i5" "" "d5"]⟩ = none) := by
  refine ⟨violations_fst_hasKey check, violations_snd_hasKey check, ?_, by decide⟩
  rw [run_eq_none_iff, eq_nil_iff_no_key, eq_nil_iff_no_key]
  constructor
  · rintro ⟨h1, h2⟩ e he
    constructor
    · by_contra hlt
      push_neg at hlt
      exact h1 e.dstImageTag.imageName
        ((violations_fst_hasKey check _).mpr ⟨e, he, rfl, hlt⟩)
    · by_contra hle
      push_neg at hle
      exact h2 e.dstImageTag.imageName
        ((violations_snd_hasKey check _).mpr ⟨e, he, rfl, hle⟩)
  · intro h
    constructor <;> intro k hk
    · rw [violations_fst_hasKey] at hk
      obtain ⟨e, he, _, hgt⟩ := hk
      have := (h e he).1
      omega
    · rw [violations_snd_hasKey] at hk
      obtain ⟨e, he, _, hle⟩ := hk
      have := (h e he).2
      omega

/-- Witness for claim C2 at a concrete input: the all-sizes-in-bounds
candidate set passes the check. -/
theorem imageSizeCheck_run_spec_witness :
    ImageSizeCheck.run ⟨1, [("d2", 1048576), ("d5", 500)],
      [mkEdge "i2" "" "d2", mkEdge "i5" "" "d5"]⟩ = none :=
  (imageSizeCheck_run_spec ⟨1, [("d2", 1048576), ("d5", 500)],
      [mkEdge "i2" "" "d2", mkEdge "i5" "" "d5"]⟩).2.2.1.mpr (by decide)

/-- Claim C5 counterexample: Go `int` is 64-bit, so the left shift in
`MBToBytes` overflows at `x = 2 ^ 44` (`2 ^ 44 << 20 = 2 ^ 64` wraps to
`0`) and the round trip collapses to `0 ≠ 2 ^ 44`; the claim does not
hold for all non-negative integers. -/
theorem mb_roundtrip_cex :
    BytesToMB (MBToBytes (2 ^ 44)) = 0 ∧ (2 ^ 44 : Int) ≠ 0 := by decide

/-- Claim C5 amended: `BytesToMB (MBToBytes x) = x` for every
non-negative `x` small enough that the 20-bit left shift stays within
the 64-bit int, i.e. `0 ≤ x < 2 ^ 43`. -/
theorem bytesToMB_mbToBytes_roundtrip (x : Int) (h0 : 0 ≤ x)
    (h1 : x < 2 ^ 43) :
    BytesToMB (MBToBytes x) = x := by
  unfold BytesToMB MBToBytes toInt64
  have h2 : (x * 2 ^ 20 + 2 ^ 63) % 2 ^ 64 - 2 ^ 63 = x * 2 ^ 20 := by omega
  rw [h2]
  exact Int.mul_fdiv_cancel x (by norm_num)

/-- Witness for the amended claim C5 at `x = 7`. -/
theorem bytesToMB_mbToBytes_roundtrip_witness :
    (0 : Int) ≤ 7 ∧ (7 : Int) < 2 ^ 43 ∧ BytesToMB (MBToBytes 7) = 7 :=
  ⟨by decide, by decide, bytesToMB_mbToBytes_roundtrip 7 (by decide) (by decide)⟩

lemma getGitShaFromEnv_ok (env : String → String) (v : String)
    (h : validSHA (env v)) : getGitShaFromEnv env v = .ok (env v) := by
  unfold getGitShaFromEnv
  rw [if_neg (by simp [h.1]), if_neg (by simp [h.2])]

lemma getGitShaFromEnv_error (env : String → String) (v : String)
    (h : ¬ validSHA (env v)) : ∃ e, getGitShaFromEnv env v = .error e := by
  unfold validSHA at h
  push_neg at h
  unfold getGitShaFromEnv
  by_cases hl : (env v).utf8ByteSize = 40
  · rw [if_neg (by simp [hl]), if_pos (by simp [h hl])]
    exact ⟨_, rfl⟩
  · rw [if_pos (by simp [hl])]
    exact ⟨_, rfl⟩

/-- Claim C9: `MKRealImageRemovalCheck` fails — as a pure function of
the environment, with no repository or worktree state in its type, so
before any checkout could occur — whenever `PULL_BASE_SHA` or
`PULL_PULL_SHA` is not a 40-byte hex-decodable string (an absent
variable reads as `""`, which is malformed), with an error naming the
offending variable; it returns the check when both are valid. -/
theorem mkRealImageRemovalCheck_validation (env : String → String)
    (gitRepoPath : String) (edges : List PromotionEdge) :
    (¬ validSHA (env "PULL_BASE_SHA") →
      ∃ e, MKRealImageRemovalCheck env gitRepoPath edges =
        .error ("The PULL_BASE_SHA environment variable is invalid: " ++ e)) ∧
    (validSHA (env "PULL_BASE_SHA") → ¬ validSHA (env "PULL_PULL_SHA") →
      ∃ e, MKRealImageRemovalCheck env gitRepoPath edges =
        .error ("The PULL_PULL_SHA environment variable is invalid: " ++ e)) ∧
    (validSHA (env "PULL_BASE_SHA") → validSHA (env "PULL_PULL_SHA") →
      MKRealImageRemovalCheck env gitRepoPath edges =
        .ok ⟨gitRepoPath, env "PULL_BASE_SHA", env "PULL_PULL_SHA", edges⟩) := by
  refine ⟨?_, ?_, ?_⟩
  · intro h
    obtain ⟨e, he⟩ := getGitShaFromEnv_error env _ h
    refine ⟨e, ?_⟩
    unfold MKRealImageRemovalCheck
    rw [he]
  · intro h1 h2
    obtain ⟨e, he⟩ := getGitShaFromEnv_error env _ h2
    refine ⟨e, ?_⟩
    unfold MKRealImageRemovalCheck
    rw [getGitShaFromEnv_ok env _ h1, he]
  · intro h1 h2
    unfold MKRealImageRemovalCheck
    rw [getGitShaFromEnv_ok env _ h1, getGitShaFromEnv_ok env _ h2]

/-- Witness for claim C9: a 39-character variable is rejected naming
`PULL_BASE_SHA`; two valid 40-hex-character variables are accepted. -/
theorem mkRealImageRemovalCheck_validation_witness :
    (∃ e, MKRealImageRemovalCheck
        (fun v => if v = "PULL_BASE_SHA"
          then "012345678901234567890123456789012345678" else "")
        "repo" [] =
      .error ("The PULL_BASE_SHA environment variable is invalid: " ++ e)) ∧
    MKRealImageRemovalCheck
        (fun v => if v = "PULL_BASE_SHA"
          then "0123456789012345678901234567890123456789"
          else if v = "PULL_PULL_SHA"
            then "abcdef0123456789abcdef0123456789abcdef01" else "")
        "repo" [] =
      .ok ⟨"repo", "0123456789012345678901234567890123456789",
        "abcdef0123456789abcdef0123456789abcdef01", []⟩ :=
  ⟨(mkRealImageRemovalCheck_validation
      (fun v => if v = "PULL_BASE_SHA"
        then "012345678901234567890123456789012345678" else "")
      "repo" []).1 (by decide),
    (mkRealImageRemovalCheck_validation
      (fun v => if v = "PULL_BASE_SHA"
        then "0123456789012345678901234567890123456789"
        else if v = "PULL_PULL_SHA"
          then "abcdef0123456789abcdef0123456789abcdef01" else "")
      "repo" []).2.2 (by decide) (by decide)⟩

/-- Claim C4, code-bug evidence: when `ParseThinManifestsFromDir`
fails, `Run` returns at checks.go:109-112 before the restoring checkout
at checks.go:121 is reached — with repository open, worktree and every
checkout succeeding and parsing failing, the worktree that started at
the pull-request SHA ends at the master SHA. -/
theorem runRemoval_parse_failure_leaves_baseline :
    (runRemoval
        ⟨none, none, fun _ => none,
          fun _ => Except.error "yaml: unmarshal errors",
          fun _ : Unit => Except.ok []⟩
        ⟨"repo", "1111111111111111111111111111111111111111",
          "2222222222222222222222222222222222222222", []⟩
        "2222222222222222222222222222222222222222").1 =
      "1111111111111111111111111111111111111111" ∧
    (runRemoval
        ⟨none, none, fun _ => none,
          fun _ => Except.error "yaml: unmarshal errors",
          fun _ : Unit => Except.ok []⟩
        ⟨"repo", "1111111111111111111111111111111111111111",
          "2222222222222222222222222222222222222222", []⟩
        "2222222222222222222222222222222222222222").2 =
      some "Could not parse manifests from the directory: yaml: unmarshal errors" ∧
    ("1111111111111111111111111111111111111111" : String) ≠
      "2222222222222222222222222222222222222222" := by
  exact ⟨rfl, rfl, by decide⟩

/-- Claim C6: the verifier yields VERIFIED exactly when some edge
matches the event on `(Path, Tag, Digest)`, the note carrying the
parent digest exactly when the matched edge has one; with no match it
yields REJECTED "could not validate"; in particular a matching digest
under a different tag is rejected, while the tagged and untagged
(fat-manifest child) concrete cases verify with the expected notes. -/
theorem auditVerifier_spec (edges : List PromotionEdge) (ev : MutationEvent) :
    ((∃ e ∈ edges, edgeMatches ev e = true) ↔
      ∃ note, verifyEvent edges ev = .verified note) ∧
    ((∀ e ∈ edges, edgeMatches ev e = false) →
      verifyEvent edges ev = .rejected "could not validate") ∧
    (∀ note, verifyEvent edges ev = .verified note →
      ∃ e ∈ edges, edgeMatches ev e = true ∧
        note = (match e.parentDigest with
          | some p => "agrees with manifest (parent digest " ++ p ++ ")"
          | none => "agrees with manifest")) ∧
    (∀ path digest : String,
      verifyEvent [mkEdge path "1.0" digest] ⟨path, digest, "2.0"⟩ =
        .rejected "could not validate") ∧
    verifyEvent [mkEdge "p" "1.0" "d"] ⟨"p", "d", "1.0"⟩ =
      .verified "agrees with manifest" ∧
    verifyEvent [⟨"", ⟨"", ""⟩, "dc", "", ⟨"p", ""⟩, some "P"⟩] ⟨"p", "dc", ""⟩ =
      .verified "agrees with manifest (parent digest P)" := by
  refine ⟨?_, ?_, ?_, ?_, by decide, by decide⟩
  · constructor
    · rintro ⟨e, he, hm⟩
      have hsome : (edges.find? (edgeMatches ev)).isSome = true :=
        List.find?_isSome.mpr ⟨e, he, hm⟩
      obtain ⟨e2, he2⟩ := Option.isSome_iff_exists.mp hsome
      unfold verifyEvent
      rw [he2]
      cases hp : e2.parentDigest <;> simp [hp]
    · rintro ⟨note, hnote⟩
      unfold verifyEvent at hnote
      cases hf : edges.find? (edgeMatches ev) with
      | none => rw [hf] at hnote; simp at hnote
      | some e =>
          exact ⟨e, List.mem_of_find?_eq_some hf, List.find?_some hf⟩
  · intro h
    have : edges.find? (edgeMatches ev) = none :=
      List.find?_eq_none.mpr (fun x hx => by rw [h x hx]; simp)
    unfold verifyEvent
    rw [this]
  · intro note hnote
    unfold verifyEvent at hnote
    cases hf : edges.find? (edgeMatches ev) with
    | none => rw [hf] at hnote; simp at hnote
    | some e =>
        rw [hf] at hnote
        refine ⟨e, List.mem_of_find?_eq_some hf, List.find?_some hf, ?_⟩
        cases hp : e.parentDigest <;> simp [hp] at hnote <;> exact hnote.symm
  · intro path digest
    have hm : edgeMatches ⟨path, digest, "2.0"⟩ (mkEdge path "1.0" digest) =
        false := by
      unfold edgeMatches mkEdge
      simp
    unfold verifyEvent
    rw [List.find?_eq_none.mpr (fun x hx => by
      rw [List.mem_singleton] at hx
      rw [hx, hm]
      simp)]

/-- Witness for claim C6: the tag-mismatch event is rejected. -/
theorem auditVerifier_spec_witness :
    verifyEvent [mkEdge "p" "1.0" "d"] ⟨"p", "d", "2.0"⟩ =
      .rejected "could not validate" :=
  (auditVerifier_spec [mkEdge "p" "1.0" "d"] ⟨"p", "d", "2.0"⟩).2.1
    (by decide)

lemma charListLe_total (as : List Char) :
    ∀ bs, charListLe as bs = true ∨ charListLe bs as = true := by
  induction as with
  | nil => intro bs; left; rfl
  | cons a as ih =>
      intro bs
      cases bs with
      | nil => right; rfl
      | cons b bs =>
          by_cases h1 : a.toNat < b.toNat
          · left; simp [charListLe, h1]
          · by_cases h2 : b.toNat < a.toNat
            · right; simp [charListLe, h2]
            · rcases ih bs with h | h
              · left; simp [charListLe, h1, h2, h]
              · right; simp [charListLe, h1, h2, h]

lemma charListLe_trans (as : List Char) :
    ∀ bs cs, charListLe as bs = true → charListLe bs cs = true →
      charListLe as cs = true := by
  induction as with
  | nil => intro bs cs _ _; rfl
  | cons a as ih =>
      intro bs cs h1 h2
      cases bs with
      | nil => simp [charListLe] at h1
      | cons b bs =>
          cases cs with
          | nil => simp [charListLe] at h2
          | cons c cs =>
              simp only [charListLe] at h1 h2 ⊢
              by_cases hab : a.toNat < b.toNat
              · by_cases hbc : b.toNat < c.toNat
                · rw [if_pos (Nat.lt_trans hab hbc)]
                · by_cases hcb : c.toNat < b.toNat
                  · rw [if_neg hbc, if_pos hcb] at h2
                    exact absurd h2 (by simp)
                  · rw [if_pos (by omega : a.toNat < c.toNat)]
              · by_cases hba : b.toNat < a.toNat
                · rw [if_neg hab, if_pos hba] at h1
                  exact absurd h1 (by simp)
                · rw [if_neg hab, if_neg hba] at h1
                  by_cases hbc : b.toNat < c.toNat
                  · rw [if_pos (by omega : a.toNat < c.toNat)]
                  · by_cases hcb : c.toNat < b.toNat
                    · rw [if_neg hbc, if_pos hcb] at h2
                      exact absurd h2 (by simp)
                    · rw [if_neg hbc, if_neg hcb] at h2
                      rw [if_neg (by omega : ¬ a.toNat < c.toNat),
                        if_neg (by omega : ¬ c.toNat < a.toNat)]
                      exact ih bs cs h1 h2

lemma sortStrings_sorted (l : List String) :
    List.Sorted (fun a b => strLe a b = true) (sortStrings l) :=
  @List.sorted_insertionSort String (fun a b => strLe a b = true) _
    ⟨fun a b => charListLe_total a.data b.data⟩
    ⟨fun a b c => charListLe_trans a.data b.data c.data⟩ l

lemma sortStrings_perm (l : List String) : (sortStrings l).Perm l :=
  List.perm_insertionSort _ l

/-- Claim C7 counterexample: an invalid image with recorded size 500 is
rendered as `foo (0 MiB)` — its size passed through `BytesToMB` like an
oversized one (checks.go:199) — not with its raw recorded size 500. -/
theorem imageSizeError_raw_cex :
    ImageSizeError.errorText ⟨1, [], [("foo", 500)]⟩ =
      "The following images had an invalid file size of 0 bytes or less:\nfoo (0 MiB)\n" ∧
    ImageSizeError.errorText ⟨1, [], [("foo", 500)]⟩ ≠
      "The following images had an invalid file size of 0 bytes or less:\nfoo (500 MiB)\n" := by
  decide

/-- Claim C7 amended: the error text enumerates the oversized images
first, with the configured ceiling stated, then the invalid images, each
list sorted lexicographically by image name and newline-joined — but
every entry, invalid ones included, shows its recorded size converted to
MiB by `BytesToMB`, not the raw recorded size. -/
theorem imageSizeError_text_spec (err : ImageSizeError)
    (h1 : err.oversizedImages ≠ []) (h2 : err.invalidImages ≠ []) :
    ∃ over inval : List String,
      List.Sorted (fun a b => strLe a b = true) over ∧
      List.Sorted (fun a b => strLe a b = true) inval ∧
      over.Perm (err.oversizedImages.map Prod.fst) ∧
      inval.Perm (err.invalidImages.map Prod.fst) ∧
      err.errorText =
        "The following images were over the max file size of " ++
          toString err.maxImageSize ++ "MiB:\n" ++
          String.intercalate "\n" (over.map (fun imageName =>
            imageName ++ " (" ++
              toString (BytesToMB (lookupSize err.oversizedImages imageName)) ++
              " MiB)")) ++ "\n" ++
        ("The following images had an invalid file size of 0 bytes or less:\n" ++
          String.intercalate "\n" (inval.map (fun imageName =>
            imageName ++ " (" ++
              toString (BytesToMB (lookupSize err.invalidImages imageName)) ++
              " MiB)")) ++ "\n") := by
  refine ⟨sortStrings (err.oversizedImages.map Prod.fst),
    sortStrings (err.invalidImages.map Prod.fst),
    sortStrings_sorted _, sortStrings_sorted _,
    sortStrings_perm _, sortStrings_perm _, ?_⟩
  unfold ImageSizeError.errorText joinImageSizesToString
  rw [if_pos (List.length_pos.mpr h1), if_pos (List.length_pos.mpr h2)]

/-- Witness for the amended claim C7 at a concrete error value. -/
theorem imageSizeError_text_spec_witness :
    ∃ over inval : List String,
      List.Sorted (fun a b => strLe a b = true) over ∧
      List.Sorted (fun a b => strLe a b = true) inval ∧
      over.Perm ["b"] ∧
      inval.Perm ["a"] ∧
      ImageSizeError.errorText ⟨5, [("b", 3145728)], [("a", 0)]⟩ =
        "The following images were over the max file size of " ++
          toString (5 : Int) ++ "MiB:\n" ++
          String.intercalate "\n" (over.map (fun imageName =>
            imageName ++ " (" ++
              toString (BytesToMB (lookupSize [("b", 3145728)] imageName)) ++
              " MiB)")) ++ "\n" ++
        ("The following images had an invalid file size of 0 bytes or less:\n" ++
          String.intercalate "\n" (inval.map (fun imageName =>
            imageName ++ " (" ++
              toString (BytesToMB (lookupSize [("a", 0)] imageName)) ++
              " MiB)")) ++ "\n") :=
  imageSizeError_text_spec ⟨5, [("b", 3145728)], [("a", 0)]⟩ (by decide)
    (by decide)

lemma lookupSize_append_zero (m : List (String × Int)) (d d' : String) :
    lookupSize (m ++ [(d, 0)]) d' = lookupSize m d' := by
  unfold lookupSize
  rw [List.find?_append]
  cases h : m.find? (fun p => decide (p.1 = d')) with
  | some p => simp [h]
  | none =>
      by_cases hd : d = d' <;> simp [h, List.find?, hd]

lemma foldl_sizeStep_congr (maxB : Int) (m1 m2 : List (String × Int))
    (h : ∀ d, lookupSize m1 d = lookupSize m2 d) (edges : List PromotionEdge)
    (acc : List (String × Int) × List (String × Int)) :
    edges.foldl (sizeStep maxB m1) acc = edges.foldl (sizeStep maxB m2) acc := by
  induction edges generalizing acc with
  | nil => rfl
  | cons e es ih =>
      rw [List.foldl_cons, List.foldl_cons, ih]
      congr 1
      unfold sizeStep
      rw [h e.digest]

/-- Claim C10: a candidate edge whose digest has no entry in the
digest-to-size map is looked up as the zero value `0`, hence reported
invalid and `Run` fails; the outcome is identical to an inventory that
explicitly records size 0 for that digest. -/
theorem run_missing_digest (check : ImageSizeCheck) (edge : PromotionEdge)
    (h1 : edge ∈ check.pullEdges)
    (h2 : ∀ p ∈ check.digestImageSize, p.1 ≠ edge.digest) :
    lookupSize check.digestImageSize edge.digest = 0 ∧
    hasKey check.violations.2 edge.dstImageTag.imageName ∧
    check.run ≠ none ∧
    check.run = ImageSizeCheck.run
      ⟨check.maxImageSize, check.digestImageSize ++ [(edge.digest, 0)],
        check.pullEdges⟩ := by
  have hl : lookupSize check.digestImageSize edge.digest = 0 := by
    unfold lookupSize
    rw [List.find?_eq_none.mpr (fun p hp => by simpa using h2 p hp)]
    rfl
  refine ⟨hl, ?_, ?_, ?_⟩
  · exact (violations_snd_hasKey check _).mpr ⟨edge, h1, rfl, by omega⟩
  · intro hnone
    rw [run_eq_none_iff] at hnone
    exact (eq_nil_iff_no_key _).mp hnone.2 edge.dstImageTag.imageName
      ((violations_snd_hasKey check _).mpr ⟨edge, h1, rfl, by omega⟩)
  · unfold ImageSizeCheck.run ImageSizeCheck.violations
    rw [foldl_sizeStep_congr (MBToBytes check.maxImageSize)
      check.digestImageSize (check.digestImageSize ++ [(edge.digest, 0)])
      (fun d => (lookupSize_append_zero check.digestImageSize edge.digest d).symm)
      check.pullEdges ([], [])]

/-- Witness for claim C10 at a concrete input: digest `d` is absent
from the inventory `[("other", 5)]`. -/
theorem run_missing_digest_witness :
    lookupSize [("other", 5)] "d" = 0 ∧
    hasKey (ImageSizeCheck.violations
      ⟨1, [("other", 5)], [mkEdge "p" "t" "d"]⟩).2 "p" ∧
    ImageSizeCheck.run ⟨1, [("other", 5)], [mkEdge "p" "t" "d"]⟩ ≠ none ∧
    ImageSizeCheck.run ⟨1, [("other", 5)], [mkEdge "p" "t" "d"]⟩ =
      ImageSizeCheck.run
        ⟨1, [("other", 5)] ++ [("d", 0)], [mkEdge "p" "t" "d"]⟩ :=
  run_missing_digest ⟨1, [("other", 5)], [mkEdge "p" "t" "d"]⟩
    (mkEdge "p" "t" "d") (by decide) (by decide)
